import Mathlib

/-!
Verification of `translate_workflows.py`.

The program batch-edits JSON files in a directory named `workflows`:
for each `.json` entry it loads the file as a JSON mapping, inserts a
default `description` (empty string) when absent, inserts a default
`translations` mapping (one entry under the fixed locale `fa`, copying
the record's `name` and final `description`) when absent, and rewrites
the file with `json.dump(data, f, indent=2, ensure_ascii=False)`.

The embedding below is shallow:
- JSON values are the inductive `JSON`; a JSON mapping (a CPython dict
  produced by `json.load`) is an association list `Obj` that preserves
  insertion order; setting a fresh key appends it at the end and setting
  an existing key overwrites it in place, exactly as CPython 3.7+ dicts
  behave. JSON numbers are modelled as integers; the records this
  program manipulates are string-keyed mappings of strings and nested
  mappings, and no claim concerns float formatting.
- `data[k]` on a missing key is a `KeyError`, modelled by `Except Err`.
- File contents are modelled at the parsed-value level: a file either
  holds a mapping or is erroneous (malformed JSON, I/O failure). The
  serializer `serialize` models `json.dump` with `indent=2` and
  `ensure_ascii=False`, including its escaping rules.
-/

set_option autoImplicit false

inductive JSON where
  | null
  | bool (b : Bool)
  | num (n : Int)
  | str (s : String)
  | arr (elems : List JSON)
  | obj (fields : List (String × JSON))
deriving Repr

/-- A JSON mapping as returned by `json.load` for an object:
an insertion-ordered association list from string keys to values. -/
abbrev Obj := List (String × JSON)

/-- `d[k]` lookup on a dict: the value stored under `k`, if any. -/
def dictLookup : Obj → String → Option JSON
  | [], _ => none
  | (k, v) :: rest, key => if k = key then some v else dictLookup rest key

/-- Python `key in data` on a dict. -/
def hasKey (d : Obj) (k : String) : Bool :=
  (dictLookup d k).isSome

/-- Python `data[k] = v` on a dict: overwrite in place if `k` is
present, otherwise append the new pair at the end (insertion order). -/
def dictSet : Obj → String → JSON → Obj
  | [], key, v => [(key, v)]
  | (k, w) :: rest, key, v =>
    if k = key then (k, v) :: rest else (k, w) :: dictSet rest key v

/-- Exceptions the script can raise per file. `KeyError` carries the
missing key; any other exception (malformed JSON, I/O failure) is
carried as its message. -/
inductive Err where
  | keyError (key : String)
  | other (msg : String)
deriving Repr, DecidableEq

/-- `str(e)` for the exceptions above; `str(KeyError(k))` is the repr
of the key, i.e. the key in single quotes. -/
def errMsg : Err → String
  | .keyError k => "\x27" ++ k ++ "\x27"
  | .other m => m

/-- Python `data[k]`: the value, or a `KeyError` naming the key. -/
def dictGet (d : Obj) (k : String) : Except Err JSON :=
  match dictLookup d k with
  | none => .error (.keyError k)
  | some v => .ok v

/-- Lines 8-9 of `translate_workflows.py`:
`if "description" not in data: data["description"] = ""`. -/
def ensureDescription (data : Obj) : Obj :=
  if hasKey data "description" then data
  else dictSet data "description" (JSON.str "")

/-- Lines 11-17 of `translate_workflows.py`: if `"translations"` is
absent, insert a mapping with the single locale `fa` whose `name` and
`description` are read from the record (`data["name"]` is evaluated
first, so its `KeyError` is the one raised when both are missing). -/
def ensureTranslations (data : Obj) : Except Err Obj :=
  if hasKey data "translations" then .ok data
  else
    match dictGet data "name" with
    | .error e => .error e
    | .ok n =>
      match dictGet data "description" with
      | .error e => .error e
      | .ok d =>
        .ok (dictSet data "translations"
          (JSON.obj [("fa", JSON.obj [("name", n), ("description", d)])]))

/-- The body of `translate_workflow` between the read and the write:
default the description, then default the translations. The final
`json.dump` is modelled separately by `serialize`. -/
def translate_workflow (data : Obj) : Except Err Obj :=
  ensureTranslations (ensureDescription data)

example :
    translate_workflow [("name", JSON.str "Sample")] =
      .ok [("name", JSON.str "Sample"), ("description", JSON.str ""),
        ("translations", JSON.obj [("fa",
          JSON.obj [("name", JSON.str "Sample"),
            ("description", JSON.str "")])])] := rfl

example :
    translate_workflow [("description", JSON.str "only")] =
      .error (.keyError "name") := rfl

/-! ## The directory walker (`main`, lines 22-31)

A directory listing is modelled as the list of its entries in listing
order; each entry carries a filename and the state of the file,
either a parsed mapping or the exception that reading/parsing it
raises (`Except Err Obj`). For every entry whose name ends in
`.json`, `main` runs `translate_workflow` inside a `try` block: on
success the file is overwritten with the result and a
`Processed <filename>` line is printed; on any exception the file is
left as it was, an `Error processing <filename>: <message>` line is
printed, and the loop continues with the remaining entries. `main`
returns the final directory state and the printed lines; it is a
total function, so per-file errors never escape to the process. -/

/-- `filename.endswith(".json")` (line 24), as a suffix test on the
characters of the name. -/
def endsWithJson (name : String) : Bool :=
  ".json".data.isSuffixOf name.data

/-- One directory entry: filename and file state (parsed mapping, or
the exception reading/parsing it raises). -/
abbrev Entry := String × Except Err Obj

/-- The body of the `for` loop for one entry: skip non-`.json` names;
otherwise run the transform under `try`/`except`, returning the new
file state and the printed line. A failing file keeps its old state
(the write at line 19-20 is never reached). -/
def stepEntry (e : Entry) : Entry × Option String :=
  if endsWithJson e.1 then
    match e.2 >>= translate_workflow with
    | .ok d => ((e.1, .ok d), some ("Processed " ++ e.1))
    | .error err =>
        (e, some ("Error processing " ++ e.1 ++ ": " ++ errMsg err))
  else (e, none)

/-- `main` (lines 22-31): process every entry of the listing in order,
collecting the final file states and the printed lines. -/
def main : List Entry → List Entry × List String
  | [] => ([], [])
  | e :: rest =>
    let (e', line) := stepEntry e
    let (rest', log) := main rest
    (e' :: rest',
      match line with
      | some l => l :: log
      | none => log)

example :
    main [("a.json", .ok [("description", JSON.str "only")]),
          ("b.json", .ok [("name", JSON.str "x"),
            ("translations", JSON.obj [])]),
          ("notes.txt", .error (.other "unread"))] =
      ([("a.json", .ok [("description", JSON.str "only")]),
        ("b.json", .ok [("name", JSON.str "x"),
          ("translations", JSON.obj []),
          ("description", JSON.str "")]),
        ("notes.txt", .error (.other "unread"))],
       ["Error processing a.json: \x27name\x27", "Processed b.json"]) := rfl

/-! ## The serializer (`json.dump(data, f, indent=2, ensure_ascii=False)`)

With `ensure_ascii=False` the encoder escapes only the double quote,
the backslash and the C0 control characters (five of them by short
escapes, the rest as `\u00XX`); every other character, in particular
every non-ASCII character, is written literally. With `indent=2` the
item separator is a comma followed by a newline and deeper
indentation, and the key separator is a colon and a space. -/

/-- The indentation in front of an item nested `lvl` levels deep. -/
def pad (lvl : Nat) : String :=
  String.mk (List.replicate (2 * lvl) ' ')

/-- The lowercase hex digit for `n < 16` (codepoint arithmetic:
48 is the codepoint of the zero digit, 87 + 10 that of `a`). -/
def hexDigit (n : Nat) : Char :=
  if n < 10 then Char.ofNat (48 + n) else Char.ofNat (87 + n)

/-- Four lowercase hex digits, as in Python's `'\\u%04x' % n` for
`n < 0x10000`. -/
def hex4 (n : Nat) : String :=
  String.mk [hexDigit (n / 4096 % 16), hexDigit (n / 256 % 16),
    hexDigit (n / 16 % 16), hexDigit (n % 16)]

/-- How `json.dump` with `ensure_ascii=False` writes one character of
a string: escape `"`, `\` and control characters below 0x20, write
everything else (all non-ASCII in particular) literally. -/
def escapeChar (c : Char) : String :=
  if c = '"' then "\\\""
  else if c = '\\' then "\\\\"
  else if c = '\x08' then "\\b"
  else if c = '\x0c' then "\\f"
  else if c = '\n' then "\\n"
  else if c = '\r' then "\\r"
  else if c = '\t' then "\\t"
  else if c.toNat < 32 then "\\u" ++ hex4 c.toNat
  else String.singleton c

def escapeList : List Char → String
  | [] => ""
  | c :: rest => escapeChar c ++ escapeList rest

/-- A JSON string literal: the escaped characters between quotes. -/
def quoteStr (s : String) : String :=
  "\"" ++ escapeList s.data ++ "\""

mutual

/-- `json.dump` with `indent=2`, `ensure_ascii=False` and the default
separators, for a value nested `lvl` levels deep (the whole file is
`serialize 0`). -/
def serialize (lvl : Nat) : JSON → String
  | .null => "null"
  | .bool true => "true"
  | .bool false => "false"
  | .num n => toString n
  | .str s => quoteStr s
  | .arr [] => "[]"
  | .arr (e :: es) =>
      "[\n" ++ serializeArr lvl (e :: es) ++ "\n" ++ pad lvl ++ "]"
  | .obj [] => "\x7b\x7d"
  | .obj (kv :: kvs) =>
      "\x7b\n" ++ serializeObj lvl (kv :: kvs) ++ "\n" ++ pad lvl ++ "\x7d"

/-- The comma-and-newline separated items of a non-empty array. -/
def serializeArr (lvl : Nat) : List JSON → String
  | [] => ""
  | [e] => pad (lvl + 1) ++ serialize (lvl + 1) e
  | e :: e2 :: es =>
      pad (lvl + 1) ++ serialize (lvl + 1) e ++ ",\n" ++
        serializeArr lvl (e2 :: es)

/-- The comma-and-newline separated `"key": value` items of a
non-empty object. -/
def serializeObj (lvl : Nat) : List (String × JSON) → String
  | [] => ""
  | (k, v) :: [] => pad (lvl + 1) ++ quoteStr k ++ ": " ++ serialize (lvl + 1) v
  | (k, v) :: kv :: kvs =>
      pad (lvl + 1) ++ quoteStr k ++ ": " ++ serialize (lvl + 1) v ++ ",\n" ++
        serializeObj lvl (kv :: kvs)

end

example :
    serialize 0 (JSON.obj [("name", JSON.str "Sample"),
      ("description", JSON.str "")]) =
      "\x7b\n  \"name\": \"Sample\",\n  \"description\": \"\"\n\x7d" := rfl

/-- Number of occurrences of a character in a string. -/
def occ (c : Char) (s : String) : Nat :=
  s.data.count c

mutual

/-- Number of occurrences of a character in the text of a JSON value:
in its strings and, for objects, in its keys. -/
def occJ (c : Char) : JSON → Nat
  | .str s => s.data.count c
  | .arr es => occArr c es
  | .obj kvs => occObj c kvs
  | _ => 0

def occArr (c : Char) : List JSON → Nat
  | [] => 0
  | e :: es => occJ c e + occArr c es

def occObj (c : Char) : List (String × JSON) → Nat
  | [] => 0
  | (k, v) :: kvs => k.data.count c + occJ c v + occObj c kvs

end

/-! ## Counting characters through the serializer -/

theorem occ_append (c : Char) (a b : String) :
    occ c (a ++ b) = occ c a + occ c b := by
  simp [occ, String.data_append]

theorem occ_eq_zero_of_ascii (c : Char) (s : String)
    (hs : ∀ ch ∈ s.data, ch.toNat < 128) (hc : 128 ≤ c.toNat) :
    occ c s = 0 := by
  rw [occ, List.count_eq_zero]
  intro hmem
  exact absurd hc (by simpa using Nat.lt_of_lt_of_le (hs c hmem) (by omega))

theorem occ_pad (c : Char) (lvl : Nat) (hc : 128 ≤ c.toNat) :
    occ c (pad lvl) = 0 := by
  apply occ_eq_zero_of_ascii c _ _ hc
  intro ch hch
  have : ch = ' ' := List.eq_of_mem_replicate hch
  subst this
  decide

theorem digitChar_ascii (m : Nat) (hm : m < 16) :
    (Nat.digitChar m).toNat < 128 := by
  interval_cases m <;> decide

theorem toDigitsCore_ascii (fuel : Nat) :
    ∀ (n : Nat) (ds : List Char), (∀ ch ∈ ds, ch.toNat < 128) →
      ∀ ch ∈ Nat.toDigitsCore 10 fuel n ds, ch.toNat < 128 := by
  induction fuel with
  | zero => intro n ds hds; simpa [Nat.toDigitsCore] using hds
  | succ fuel ih =>
    intro n ds hds ch hch
    have hcons : ∀ x ∈ Nat.digitChar (n % 10) :: ds, x.toNat < 128 := by
      intro x hx
      rcases List.mem_cons.mp hx with h | h
      · subst h
        exact digitChar_ascii _ (Nat.lt_of_lt_of_le (Nat.mod_lt _ (by omega))
          (by omega))
      · exact hds x h
    rw [Nat.toDigitsCore] at hch
    split at hch
    · exact hcons ch hch
    · exact ih (n / 10) (Nat.digitChar (n % 10) :: ds) hcons ch hch

theorem natRepr_ascii (n : Nat) : ∀ ch ∈ (Nat.repr n).data, ch.toNat < 128 := by
  intro ch hch
  exact toDigitsCore_ascii (n + 1) n [] (by simp) ch hch

theorem intToString_ascii (n : Int) :
    ∀ ch ∈ (toString n).data, ch.toNat < 128 := by
  cases n with
  | ofNat m => exact natRepr_ascii m
  | negSucc m =>
    intro ch hch
    have : ch ∈ ("-" : String).data ++ (Nat.repr (m + 1)).data := by
      simpa [toString, String.data_append] using hch
    rcases List.mem_append.mp this with h | h
    · simp at h
      subst h
      decide
    · exact natRepr_ascii (m + 1) ch h

theorem hexDigit_ascii (n : Nat) (hn : n < 16) :
    (hexDigit n).toNat < 128 := by
  interval_cases n <;> decide

theorem hex4_ascii (n : Nat) : ∀ ch ∈ (hex4 n).data, ch.toNat < 128 := by
  intro ch hch
  have h4 : ch ∈ [hexDigit (n / 4096 % 16), hexDigit (n / 256 % 16),
      hexDigit (n / 16 % 16), hexDigit (n % 16)] := hch
  simp only [List.mem_cons, List.not_mem_nil, or_false] at h4
  rcases h4 with h | h | h | h
  all_goals (subst h; exact hexDigit_ascii _ (Nat.mod_lt _ (by omega)))

/-- For a non-ASCII character `c`, every character escape contributes
exactly the occurrences of `c` that the escaped character itself had:
`c` is written literally and no escape produces it. -/
theorem occ_escapeChar (c d : Char) (hc : 128 ≤ c.toNat) :
    occ c (escapeChar d) = if d = c then 1 else 0 := by
  have hne : ∀ d' : Char, d'.toNat < 128 → ¬(d' = c) := by
    intro d' hd' he
    subst he
    omega
  unfold escapeChar
  split
  · rename_i h; subst h
    rw [if_neg (hne _ (by decide))]
    exact occ_eq_zero_of_ascii c _ (by decide) hc
  split
  · rename_i h; subst h
    rw [if_neg (hne _ (by decide))]
    exact occ_eq_zero_of_ascii c _ (by decide) hc
  split
  · rename_i h; subst h
    rw [if_neg (hne _ (by decide))]
    exact occ_eq_zero_of_ascii c _ (by decide) hc
  split
  · rename_i h; subst h
    rw [if_neg (hne _ (by decide))]
    exact occ_eq_zero_of_ascii c _ (by decide) hc
  split
  · rename_i h; subst h
    rw [if_neg (hne _ (by decide))]
    exact occ_eq_zero_of_ascii c _ (by decide) hc
  split
  · rename_i h; subst h
    rw [if_neg (hne _ (by decide))]
    exact occ_eq_zero_of_ascii c _ (by decide) hc
  split
  · rename_i h; subst h
    rw [if_neg (hne _ (by decide))]
    exact occ_eq_zero_of_ascii c _ (by decide) hc
  split
  · rename_i h
    rw [if_neg (hne d (by omega))]
    apply occ_eq_zero_of_ascii c _ _ hc
    intro ch hch
    have : ch ∈ ("\\u" : String).data ++ (hex4 d.toNat).data := by
      simpa [String.data_append] using hch
    rcases List.mem_append.mp this with h' | h'
    · have : ch = '\\' ∨ ch = 'u' := by simpa using h'
      rcases this with h' | h' <;> (subst h'; decide)
    · exact hex4_ascii d.toNat ch h'
  · rename_i h
    by_cases hd : d = c
    · subst hd
      simp [occ, String.singleton]
    · rw [if_neg hd]
      simp [occ, String.singleton, List.count_singleton]
      simpa using hd

theorem occ_escapeList (c : Char) (hc : 128 ≤ c.toNat) :
    ∀ l : List Char, occ c (escapeList l) = l.count c := by
  intro l
  induction l with
  | nil => simp [escapeList, occ]
  | cons d rest ih =>
    rw [escapeList, occ_append, occ_escapeChar c d hc, ih, List.count_cons]
    by_cases h : d = c
    · simp [h]
      omega
    · simp [h]

theorem occ_quoteStr (c : Char) (s : String) (hc : 128 ≤ c.toNat) :
    occ c (quoteStr s) = s.data.count c := by
  rw [quoteStr, occ_append, occ_append, occ_escapeList c hc,
    occ_eq_zero_of_ascii c "\"" (by decide) hc]
  omega

mutual

/-- Serialization neither escapes away nor fabricates non-ASCII
characters: for `128 ≤ c.toNat`, the rendered text has exactly as
many occurrences of `c` as the value's strings and keys do. -/
theorem occ_serialize (c : Char) (hc : 128 ≤ c.toNat) (lvl : Nat) :
    ∀ v : JSON, occ c (serialize lvl v) = occJ c v
  | .null => by
    simp only [serialize, occJ]
    exact occ_eq_zero_of_ascii c "null" (by decide) hc
  | .bool true => by
    simp only [serialize, occJ]
    exact occ_eq_zero_of_ascii c "true" (by decide) hc
  | .bool false => by
    simp only [serialize, occJ]
    exact occ_eq_zero_of_ascii c "false" (by decide) hc
  | .num n => by
    simp only [serialize, occJ]
    exact occ_eq_zero_of_ascii c (toString n) (intToString_ascii n) hc
  | .str s => by
    simp only [serialize, occJ]
    exact occ_quoteStr c s hc
  | .arr [] => by
    rw [serialize, occJ, occArr]
    exact occ_eq_zero_of_ascii c "[]" (by decide) hc
  | .arr (e :: es) => by
    rw [occJ, serialize, occ_append, occ_append, occ_append, occ_append,
      occ_serializeArr c hc lvl (e :: es), occ_pad c lvl hc,
      occ_eq_zero_of_ascii c "[\n" (by decide) hc,
      occ_eq_zero_of_ascii c "\n" (by decide) hc,
      occ_eq_zero_of_ascii c "]" (by decide) hc]
    omega
  | .obj [] => by
    rw [serialize, occJ, occObj]
    exact occ_eq_zero_of_ascii c "\x7b\x7d" (by decide) hc
  | .obj (kv :: kvs) => by
    rw [occJ, serialize, occ_append, occ_append, occ_append, occ_append,
      occ_serializeObj c hc lvl (kv :: kvs), occ_pad c lvl hc,
      occ_eq_zero_of_ascii c "\x7b\n" (by decide) hc,
      occ_eq_zero_of_ascii c "\n" (by decide) hc,
      occ_eq_zero_of_ascii c "\x7d" (by decide) hc]
    omega

theorem occ_serializeArr (c : Char) (hc : 128 ≤ c.toNat) (lvl : Nat) :
    ∀ l : List JSON, occ c (serializeArr lvl l) = occArr c l
  | [] => by
    rw [serializeArr, occArr]
    exact occ_eq_zero_of_ascii c "" (by decide) hc
  | [e] => by
    rw [occArr, occArr, serializeArr, occ_append,
      occ_serialize c hc (lvl + 1) e, occ_pad c (lvl + 1) hc]
    omega
  | e :: e2 :: es => by
    rw [occArr, serializeArr, occ_append, occ_append, occ_append,
      occ_serialize c hc (lvl + 1) e, occ_serializeArr c hc lvl (e2 :: es),
      occ_pad c (lvl + 1) hc, occ_eq_zero_of_ascii c ",\n" (by decide) hc]
    omega

theorem occ_serializeObj (c : Char) (hc : 128 ≤ c.toNat) (lvl : Nat) :
    ∀ l : List (String × JSON), occ c (serializeObj lvl l) = occObj c l
  | [] => by
    rw [serializeObj, occObj]
    exact occ_eq_zero_of_ascii c "" (by decide) hc
  | [(k, v)] => by
    rw [occObj, occObj, serializeObj, occ_append, occ_append, occ_append,
      occ_serialize c hc (lvl + 1) v, occ_quoteStr c k hc,
      occ_pad c (lvl + 1) hc, occ_eq_zero_of_ascii c ": " (by decide) hc]
    omega
  | (k, v) :: kv :: kvs => by
    rw [occObj, serializeObj, occ_append, occ_append, occ_append,
      occ_append, occ_append, occ_serialize c hc (lvl + 1) v,
      occ_serializeObj c hc lvl (kv :: kvs), occ_quoteStr c k hc,
      occ_pad c (lvl + 1) hc, occ_eq_zero_of_ascii c ": " (by decide) hc,
      occ_eq_zero_of_ascii c ",\n" (by decide) hc]
    omega

end

/-! ## Dictionary lemmas -/

theorem dictLookup_dictSet_self (d : Obj) (k : String) (v : JSON) :
    dictLookup (dictSet d k v) k = some v := by
  induction d with
  | nil => simp [dictSet, dictLookup]
  | cons kv rest ih =>
    obtain ⟨k0, v0⟩ := kv
    by_cases h : k0 = k <;> simp [dictSet, dictLookup, h, ih]

theorem dictLookup_dictSet_ne (d : Obj) (k k' : String) (v : JSON)
    (h : k' ≠ k) : dictLookup (dictSet d k v) k' = dictLookup d k' := by
  induction d with
  | nil => simp [dictSet, dictLookup, Ne.symm h]
  | cons kv rest ih =>
    obtain ⟨k0, v0⟩ := kv
    by_cases h0 : k0 = k
    · subst h0
      simp [dictSet, dictLookup, Ne.symm h]
    · simp [dictSet, dictLookup, h0, ih]

theorem hasKey_dictSet_self (d : Obj) (k : String) (v : JSON) :
    hasKey (dictSet d k v) k = true := by
  simp [hasKey, dictLookup_dictSet_self]

theorem hasKey_dictSet_ne (d : Obj) (k k' : String) (v : JSON)
    (h : k' ≠ k) : hasKey (dictSet d k v) k' = hasKey d k' := by
  simp [hasKey, dictLookup_dictSet_ne d k k' v h]

theorem hasKey_iff_lookup (d : Obj) (k : String) :
    hasKey d k = true ↔ ∃ v, dictLookup d k = some v := by
  simp [hasKey, Option.isSome_iff_exists]

theorem hasKey_false_iff_lookup (d : Obj) (k : String) :
    hasKey d k = false ↔ dictLookup d k = none := by
  unfold hasKey
  cases dictLookup d k <;> simp

/-! ## Characterizing the transform -/

theorem lookup_ensureDescription_ne (data : Obj) (k : String)
    (h : k ≠ "description") :
    dictLookup (ensureDescription data) k = dictLookup data k := by
  unfold ensureDescription
  split
  · rfl
  · exact dictLookup_dictSet_ne data "description" k (JSON.str "") h

theorem lookup_ensureDescription_desc (data : Obj) :
    dictLookup (ensureDescription data) "description" =
      some ((dictLookup data "description").getD (JSON.str "")) := by
  unfold ensureDescription
  split
  · rename_i h
    obtain ⟨v, hv⟩ := (hasKey_iff_lookup data "description").mp h
    simp [hv]
  · rename_i h
    have h0 := (hasKey_false_iff_lookup data "description").mp
      (Bool.not_eq_true _ ▸ h)
    simp [h0, dictLookup_dictSet_self]

theorem hasKey_ensureDescription_desc (data : Obj) :
    hasKey (ensureDescription data) "description" = true := by
  simp [hasKey, lookup_ensureDescription_desc]

theorem hasKey_ensureDescription_ne (data : Obj) (k : String)
    (h : k ≠ "description") :
    hasKey (ensureDescription data) k = hasKey data k := by
  simp [hasKey, lookup_ensureDescription_ne data k h]

/-- The value `ensureTranslations` inserts under `"translations"`. -/
def faEntry (n d : JSON) : JSON :=
  JSON.obj [("fa", JSON.obj [("name", n), ("description", d)])]

theorem ensureTranslations_present (data : Obj)
    (h : hasKey data "translations" = true) :
    ensureTranslations data = .ok data := by
  simp [ensureTranslations, h]

theorem ensureTranslations_absent_ok (data : Obj) (n d : JSON)
    (h : hasKey data "translations" = false)
    (hn : dictLookup data "name" = some n)
    (hd : dictLookup data "description" = some d) :
    ensureTranslations data =
      .ok (dictSet data "translations" (faEntry n d)) := by
  simp [ensureTranslations, h, dictGet, hn, hd, faEntry]

theorem ensureTranslations_absent_noname (data : Obj)
    (h : hasKey data "translations" = false)
    (hn : dictLookup data "name" = none) :
    ensureTranslations data = .error (.keyError "name") := by
  simp [ensureTranslations, h, dictGet, hn]

/-- Closed form of the transform when `translations` is already
present: only the description may be defaulted. -/
theorem translate_workflow_present (data : Obj)
    (h : hasKey data "translations" = true) :
    translate_workflow data = .ok (ensureDescription data) := by
  unfold translate_workflow
  apply ensureTranslations_present
  rw [hasKey_ensureDescription_ne data "translations" (by decide)]
  exact h

/-- Closed form of the transform when `translations` is absent and
`name` is present: the defaulted record gets a synthesized
`translations` entry for locale `fa`. -/
theorem translate_workflow_absent (data : Obj) (n : JSON)
    (h : hasKey data "translations" = false)
    (hn : dictLookup data "name" = some n) :
    translate_workflow data =
      .ok (dictSet (ensureDescription data) "translations"
        (faEntry n ((dictLookup data "description").getD (JSON.str "")))) := by
  unfold translate_workflow
  apply ensureTranslations_absent_ok
  · rw [hasKey_ensureDescription_ne data "translations" (by decide)]
    exact h
  · rw [lookup_ensureDescription_ne data "name" (by decide)]
    exact hn
  · exact lookup_ensureDescription_desc data

/-- Closed form of the transform when both `translations` and `name`
are absent: the `KeyError` for `name` propagates. -/
theorem translate_workflow_noname (data : Obj)
    (h : hasKey data "translations" = false)
    (hn : dictLookup data "name" = none) :
    translate_workflow data = .error (.keyError "name") := by
  unfold translate_workflow
  apply ensureTranslations_absent_noname
  · rw [hasKey_ensureDescription_ne data "translations" (by decide)]
    exact h
  · rw [lookup_ensureDescription_ne data "name" (by decide)]
    exact hn

/-- A successful transform keeps every key other than `description`
and `translations` exactly as it was. -/
theorem translate_preserves_other (data d' : Obj)
    (h : translate_workflow data = .ok d') (k : String)
    (hk1 : k ≠ "description") (hk2 : k ≠ "translations") :
    dictLookup d' k = dictLookup data k := by
  by_cases ht : hasKey data "translations" = true
  · rw [translate_workflow_present data ht] at h
    cases h
    exact lookup_ensureDescription_ne data k hk1
  · have ht' : hasKey data "translations" = false := by
      simpa using ht
    cases hn : dictLookup data "name" with
    | none => rw [translate_workflow_noname data ht' hn] at h; cases h
    | some n =>
      rw [translate_workflow_absent data n ht' hn] at h
      cases h
      rw [dictLookup_dictSet_ne _ _ _ _ hk2]
      exact lookup_ensureDescription_ne data k hk1

/-- After a successful transform the description is the original one,
or the empty string if there was none. -/
theorem translate_desc (data d' : Obj)
    (h : translate_workflow data = .ok d') :
    dictLookup d' "description" =
      some ((dictLookup data "description").getD (JSON.str "")) := by
  by_cases ht : hasKey data "translations" = true
  · rw [translate_workflow_present data ht] at h
    cases h
    exact lookup_ensureDescription_desc data
  · have ht' : hasKey data "translations" = false := by
      simpa using ht
    cases hn : dictLookup data "name" with
    | none => rw [translate_workflow_noname data ht' hn] at h; cases h
    | some n =>
      rw [translate_workflow_absent data n ht' hn] at h
      cases h
      rw [dictLookup_dictSet_ne _ _ _ _ (by decide)]
      exact lookup_ensureDescription_desc data

/-- After a successful transform both defaulted keys are present. -/
theorem translate_hasKeys (data d' : Obj)
    (h : translate_workflow data = .ok d') :
    hasKey d' "description" = true ∧ hasKey d' "translations" = true := by
  constructor
  · simp [hasKey, translate_desc data d' h]
  · by_cases ht : hasKey data "translations" = true
    · rw [translate_workflow_present data ht] at h
      cases h
      rw [hasKey_ensureDescription_ne data "translations" (by decide)]
      exact ht
    · have ht' : hasKey data "translations" = false := by
        simpa using ht
      cases hn : dictLookup data "name" with
      | none => rw [translate_workflow_noname data ht' hn] at h; cases h
      | some n =>
        rw [translate_workflow_absent data n ht' hn] at h
        cases h
        exact hasKey_dictSet_self _ _ _

/-- On a record that already has both keys the transform is the
identity. -/
theorem translate_fixed (data : Obj)
    (hd : hasKey data "description" = true)
    (ht : hasKey data "translations" = true) :
    translate_workflow data = .ok data := by
  have he : ensureDescription data = data := by
    simp [ensureDescription, hd]
  rw [translate_workflow_present data ht, he]

/-- A pre-existing `translations` value survives the transform
untouched. -/
theorem translate_transl (data d' : Obj) (t : JSON)
    (ht : dictLookup data "translations" = some t)
    (h : translate_workflow data = .ok d') :
    dictLookup d' "translations" = some t := by
  have htt : hasKey data "translations" = true := by simp [hasKey, ht]
  rw [translate_workflow_present data htt] at h
  cases h
  rw [lookup_ensureDescription_ne data "translations" (by decide)]
  exact ht

/-! ## Walker lemmas -/

theorem main_cons (e : Entry) (l : List Entry) :
    main (e :: l) = ((stepEntry e).1 :: (main l).1,
      match (stepEntry e).2 with
      | some s => s :: (main l).2
      | none => (main l).2) := rfl

theorem main_append (l1 l2 : List Entry) :
    main (l1 ++ l2) =
      ((main l1).1 ++ (main l2).1, (main l1).2 ++ (main l2).2) := by
  induction l1 with
  | nil => simp [main]
  | cons e rest ih =>
    rw [List.cons_append, main_cons, main_cons, ih]
    cases (stepEntry e).2 <;> simp

theorem stepEntry_error (f : String) (c : Except Err Obj) (err : Err)
    (hf : endsWithJson f = true)
    (h : c >>= translate_workflow = .error err) :
    stepEntry (f, c) =
      ((f, c), some ("Error processing " ++ f ++ ": " ++ errMsg err)) := by
  simp [stepEntry, hf, h]

theorem stepEntry_ok (f : String) (c : Except Err Obj) (d : Obj)
    (hf : endsWithJson f = true)
    (h : c >>= translate_workflow = .ok d) :
    stepEntry (f, c) = ((f, .ok d), some ("Processed " ++ f)) := by
  simp [stepEntry, hf, h]

/-- If a dict entry holds value `v`, the whole object's text contains
at least the occurrences of any character that `v`'s text has. -/
theorem occJ_le_occObj (c : Char) (d : Obj) (k : String) (v : JSON)
    (h : dictLookup d k = some v) : occJ c v ≤ occObj c d := by
  induction d with
  | nil => cases h
  | cons kv rest ih =>
    obtain ⟨k0, v0⟩ := kv
    rw [dictLookup] at h
    rw [occObj]
    by_cases h0 : k0 = k
    · rw [if_pos h0] at h
      cases h
      omega
    · rw [if_neg h0] at h
      have := ih h
      omega

/-! ## Claims -/

/-- C1: on a record with `name` but without `translations`, the
transform succeeds and the resulting `translations` is a mapping with
exactly one entry, keyed by the fixed locale `fa`, whose value maps
`name` to the record's name and `description` to the record's final
(possibly just-defaulted) description. -/
theorem spec_C1 (data : Obj) (n : JSON)
    (ht : hasKey data "translations" = false)
    (hn : dictLookup data "name" = some n) :
    ∃ d', translate_workflow data = .ok d' ∧
      dictLookup d' "translations" =
        some (JSON.obj [("fa", JSON.obj [("name", n), ("description",
          (dictLookup data "description").getD (JSON.str ""))])]) ∧
      dictLookup d' "name" = some n ∧
      dictLookup d' "description" =
        some ((dictLookup data "description").getD (JSON.str "")) := by
  refine ⟨_, translate_workflow_absent data n ht hn, ?_, ?_, ?_⟩
  · rw [dictLookup_dictSet_self]
    rfl
  · rw [dictLookup_dictSet_ne _ _ _ _ (by decide),
      lookup_ensureDescription_ne data "name" (by decide)]
    exact hn
  · exact translate_desc data _ (translate_workflow_absent data n ht hn)

theorem spec_C1_witness :
    ∃ d', translate_workflow [("name", JSON.str "Sample")] = .ok d' ∧
      dictLookup d' "translations" =
        some (JSON.obj [("fa", JSON.obj [("name", JSON.str "Sample"),
          ("description", (dictLookup [("name", JSON.str "Sample")]
            "description").getD (JSON.str ""))])]) ∧
      dictLookup d' "name" = some (JSON.str "Sample") ∧
      dictLookup d' "description" =
        some ((dictLookup [("name", JSON.str "Sample")]
          "description").getD (JSON.str "")) :=
  spec_C1 [("name", JSON.str "Sample")] (JSON.str "Sample") rfl rfl

/-- C2: if the record had no `description`, a successful transform
leaves it with `description` mapped to the empty string. -/
theorem spec_C2 (data d' : Obj)
    (h0 : hasKey data "description" = false)
    (h : translate_workflow data = .ok d') :
    dictLookup d' "description" = some (JSON.str "") := by
  have hd := translate_desc data d' h
  rw [(hasKey_false_iff_lookup data "description").mp h0] at hd
  simpa using hd

theorem spec_C2_witness :
    dictLookup [("name", JSON.str "x"), ("description", JSON.str ""),
      ("translations", JSON.obj [("fa", JSON.obj [("name", JSON.str "x"),
        ("description", JSON.str "")])])] "description" =
      some (JSON.str "") :=
  spec_C2 [("name", JSON.str "x")] _ rfl rfl

/-- C3: a pre-existing `translations` value, whatever its shape, is
returned unchanged by the transform: no merging, no validation, no
added locale entries. (The serializer is a function of the value, so
its rendering in the rewritten file is exactly the rendering of this
unchanged value.) -/
theorem spec_C3 (data d' : Obj) (t : JSON)
    (ht : dictLookup data "translations" = some t)
    (h : translate_workflow data = .ok d') :
    dictLookup d' "translations" = some t :=
  translate_transl data d' t ht h

theorem spec_C3_witness :
    dictLookup [("translations", JSON.obj [("en", JSON.obj [])]),
      ("description", JSON.str "")] "translations" =
      some (JSON.obj [("en", JSON.obj [])]) :=
  spec_C3 [("translations", JSON.obj [("en", JSON.obj [])])] _
    (JSON.obj [("en", JSON.obj [])]) rfl rfl

/-- C4: the transform is idempotent: a record produced by a
successful transform transforms again successfully to itself, so the
second run writes the same file content. -/
theorem spec_C4 (data d' : Obj)
    (h : translate_workflow data = .ok d') :
    translate_workflow d' = .ok d' := by
  obtain ⟨hd, ht⟩ := translate_hasKeys data d' h
  exact translate_fixed d' hd ht

theorem spec_C4_witness :
    translate_workflow [("name", JSON.str "x"),
      ("description", JSON.str ""),
      ("translations", JSON.obj [("fa", JSON.obj [("name", JSON.str "x"),
        ("description", JSON.str "")])])] =
      .ok [("name", JSON.str "x"), ("description", JSON.str ""),
        ("translations", JSON.obj [("fa", JSON.obj [("name", JSON.str "x"),
          ("description", JSON.str "")])])] :=
  spec_C4 [("name", JSON.str "x")] _ rfl

/-- C5: on a record with neither `name` nor `translations` the
transform raises the `KeyError` for `name`, and the walker's loop
body leaves the file in its previous state (the write never runs)
while printing the error line. -/
theorem spec_C5 (data : Obj)
    (hn : hasKey data "name" = false)
    (ht : hasKey data "translations" = false) :
    translate_workflow data = .error (.keyError "name") ∧
    ∀ f : String, endsWithJson f = true →
      stepEntry (f, .ok data) =
        ((f, .ok data),
          some ("Error processing " ++ f ++ ": " ++ "\x27name\x27")) := by
  have h1 : translate_workflow data = .error (.keyError "name") :=
    translate_workflow_noname data ht
      ((hasKey_false_iff_lookup data "name").mp hn)
  refine ⟨h1, fun f hf => ?_⟩
  have hb : (Except.ok data : Except Err Obj) >>= translate_workflow =
      translate_workflow data := rfl
  simp only [stepEntry, hf, if_true, hb, h1]
  rfl

theorem spec_C5_witness :
    translate_workflow [("description", JSON.str "only")] =
      .error (.keyError "name") ∧
    stepEntry ("w.json", .ok [("description", JSON.str "only")]) =
      (("w.json", .ok [("description", JSON.str "only")]),
        some "Error processing w.json: \x27name\x27") := by
  have h := spec_C5 [("description", JSON.str "only")] rfl rfl
  exact ⟨h.1, (h.2 "w.json" rfl).trans rfl⟩

/-- C6 counterexample: the record with a `translations` key and no
`name` key is transformed successfully (only the description is
defaulted), so absence of `name` does not always make the transform
fail. -/
theorem spec_C6_counterexample :
    hasKey [("translations", JSON.obj [])] "name" = false ∧
    translate_workflow [("translations", JSON.obj [])] =
      .ok [("translations", JSON.obj []), ("description", JSON.str "")] :=
  ⟨rfl, rfl⟩

/-- C6 (amended): on a record without `name`, the transform fails —
with the `KeyError` for `name` — exactly when `translations` is also
absent; when `translations` is present the transform succeeds without
`name`. -/
theorem spec_C6 (data : Obj) (hn : hasKey data "name" = false) :
    translate_workflow data = .error (.keyError "name") ↔
      hasKey data "translations" = false := by
  constructor
  · intro h
    by_contra hc
    have ht : hasKey data "translations" = true := by simpa using hc
    rw [translate_workflow_present data ht] at h
    cases h
  · intro ht
    exact translate_workflow_noname data ht
      ((hasKey_false_iff_lookup data "name").mp hn)

theorem spec_C6_witness :
    translate_workflow [] = .error (.keyError "name") :=
  (spec_C6 [] rfl).mpr rfl

/-- C8: a successful transform always leaves the record with both a
`description` key and a `translations` key. -/
theorem spec_C8 (data d' : Obj)
    (h : translate_workflow data = .ok d') :
    hasKey d' "description" = true ∧ hasKey d' "translations" = true :=
  translate_hasKeys data d' h

theorem spec_C8_witness :
    hasKey [("name", JSON.str "x"), ("description", JSON.str ""),
      ("translations", JSON.obj [("fa", JSON.obj [("name", JSON.str "x"),
        ("description", JSON.str "")])])] "description" = true ∧
    hasKey [("name", JSON.str "x"), ("description", JSON.str ""),
      ("translations", JSON.obj [("fa", JSON.obj [("name", JSON.str "x"),
        ("description", JSON.str "")])])] "translations" = true :=
  spec_C8 [("name", JSON.str "x")] _ rfl

/-- C10: a successful transform preserves every pre-existing
key-value pair and touches no key other than `description` and
`translations`. -/
theorem spec_C10 (data d' : Obj)
    (h : translate_workflow data = .ok d') :
    (∀ k v, dictLookup data k = some v → dictLookup d' k = some v) ∧
    (∀ k, k ≠ "description" → k ≠ "translations" →
      dictLookup d' k = dictLookup data k) := by
  constructor
  · intro k v hv
    by_cases h1 : k = "description"
    · subst h1
      rw [translate_desc data d' h, hv]
      rfl
    · by_cases h2 : k = "translations"
      · subst h2
        exact translate_transl data d' v hv h
      · rw [translate_preserves_other data d' h k h1 h2]
        exact hv
  · exact fun k h1 h2 => translate_preserves_other data d' h k h1 h2

/-- C7: for every directory listing, an error raised while handling
one `.json` entry is caught at that entry: the entry keeps its old
file state, the walker prints exactly the line
`Error processing <filename>: <error message>` for it, and every
other entry of the listing is processed exactly as it would be on its
own; a successful `.json` entry gets its file overwritten and the
line `Processed <filename>`. `main` is a total function into listing
and log, so no per-file error escapes to the process. -/
theorem spec_C7 (pre post : List Entry) (f : String) (c : Except Err Obj)
    (hf : endsWithJson f = true) :
    (∀ err, c >>= translate_workflow = .error err →
      main (pre ++ (f, c) :: post) =
        ((main pre).1 ++ (f, c) :: (main post).1,
         (main pre).2 ++
           ("Error processing " ++ f ++ ": " ++ errMsg err) ::
             (main post).2)) ∧
    (∀ d, c >>= translate_workflow = .ok d →
      main (pre ++ (f, c) :: post) =
        ((main pre).1 ++ (f, Except.ok d) :: (main post).1,
         (main pre).2 ++ ("Processed " ++ f) :: (main post).2)) := by
  constructor
  · intro err h
    rw [main_append, main_cons, stepEntry_error f c err hf h]
  · intro d h
    rw [main_append, main_cons, stepEntry_ok f c d hf h]

theorem spec_C7_witness :
    main [("a.json", Except.ok ([] : Obj)),
          ("b.json", Except.ok [("name", JSON.str "y")])] =
      ([("a.json", Except.ok ([] : Obj)),
        ("b.json", Except.ok [("name", JSON.str "y"),
          ("description", JSON.str ""),
          ("translations", JSON.obj [("fa", JSON.obj
            [("name", JSON.str "y"), ("description", JSON.str "")])])])],
       ["Error processing a.json: \x27name\x27", "Processed b.json"]) := by
  have h := (spec_C7 [] [("b.json", Except.ok [("name", JSON.str "y")])]
    "a.json" (Except.ok ([] : Obj)) rfl).1 (Err.keyError "name") rfl
  exact h.trans rfl

/-- C9: serialization with `ensure_ascii=False` preserves every
non-ASCII character literally: the rewritten file has exactly as many
occurrences of a non-ASCII character as the transformed record's
strings and keys do (none escaped away, none fabricated), and in
particular every non-ASCII character of the input record's `name` or
`description` string appears in the written output. -/
theorem spec_C9 (data d' : Obj) (c : Char)
    (h : translate_workflow data = .ok d') (hc : 128 ≤ c.toNat) :
    occ c (serialize 0 (JSON.obj d')) = occObj c d' ∧
    (∀ s : String, (dictLookup data "name" = some (JSON.str s) ∨
        dictLookup data "description" = some (JSON.str s)) →
      c ∈ s.data → c ∈ (serialize 0 (JSON.obj d')).data) := by
  have h1 : occ c (serialize 0 (JSON.obj d')) = occObj c d' := by
    rw [occ_serialize c hc 0 (JSON.obj d'), occJ]
  refine ⟨h1, fun s hs hmem => ?_⟩
  have hd : dictLookup d' "name" = some (JSON.str s) ∨
      dictLookup d' "description" = some (JSON.str s) := by
    rcases hs with hn | hdsc
    · left
      rw [translate_preserves_other data d' h "name" (by decide) (by decide)]
      exact hn
    · right
      have hx := translate_desc data d' h
      rw [hdsc] at hx
      simpa using hx
  have hle : occJ c (JSON.str s) ≤ occObj c d' := by
    rcases hd with h' | h'
    · exact occJ_le_occObj c d' "name" _ h'
    · exact occJ_le_occObj c d' "description" _ h'
  rw [occJ] at hle
  have hpos : 0 < s.data.count c := List.count_pos_iff.mpr hmem
  have hout : 0 < occ c (serialize 0 (JSON.obj d')) := by
    rw [h1]
    omega
  exact List.count_pos_iff.mp hout

theorem spec_C9_witness :
    occ 'é' (serialize 0 (JSON.obj [("name", JSON.str "é"),
      ("description", JSON.str ""),
      ("translations", JSON.obj [("fa", JSON.obj
        [("name", JSON.str "é"), ("description", JSON.str "")])])])) =
      occObj 'é' [("name", JSON.str "é"),
        ("description", JSON.str ""),
        ("translations", JSON.obj [("fa", JSON.obj
          [("name", JSON.str "é"),
            ("description", JSON.str "")])])] ∧
    (∀ s : String,
      (dictLookup [("name", JSON.str "é")] "name" =
          some (JSON.str s) ∨
        dictLookup [("name", JSON.str "é")] "description" =
          some (JSON.str s)) →
      'é' ∈ s.data →
      'é' ∈ (serialize 0 (JSON.obj [("name", JSON.str "é"),
        ("description", JSON.str ""),
        ("translations", JSON.obj [("fa", JSON.obj
          [("name", JSON.str "é"),
            ("description", JSON.str "")])])])).data) :=
  spec_C9 [("name", JSON.str "é")] _ 'é' rfl (by decide)

theorem spec_C10_witness :
    (∀ k v, dictLookup [("name", JSON.str "n"), ("extra", JSON.num 7)]
        k = some v →
      dictLookup [("name", JSON.str "n"), ("extra", JSON.num 7),
        ("description", JSON.str ""), ("translations",
          JSON.obj [("fa", JSON.obj [("name", JSON.str "n"),
            ("description", JSON.str "")])])] k = some v) ∧
    (∀ k, k ≠ "description" → k ≠ "translations" →
      dictLookup [("name", JSON.str "n"), ("extra", JSON.num 7),
        ("description", JSON.str ""), ("translations",
          JSON.obj [("fa", JSON.obj [("name", JSON.str "n"),
            ("description", JSON.str "")])])] k =
        dictLookup [("name", JSON.str "n"), ("extra", JSON.num 7)] k) :=
  spec_C10 [("name", JSON.str "n"), ("extra", JSON.num 7)] _ rfl
